import Mathlib

/-!
Verification development for the link-casing rewrite engine
(`src/main.ts` of the obsidian-link-casing plugin).

Strings are modelled as `List Char`.  JavaScript `toLowerCase` /
`toUpperCase` (Unicode default case conversion) are modelled on the
ASCII and Latin-1 letter ranges; characters outside those ranges map to
themselves.  The Unicode property classes `\p{L}` and `\p{M}` of the
source regexes are likewise modelled on the ASCII letters, the Latin-1
letters and the combining-diacritical-marks block; this covers every
character appearing in the development.
-/

namespace LinkCasing

/-- Model of JS `String.prototype.toLowerCase` on one character:
`A`-`Z` and the Latin-1 uppercase letters `À`-`Þ` (except `×`) map
down by 32; everything else is unchanged. -/
def charLower (c : Char) : Char :=
  if ('A' ≤ c && c ≤ 'Z') then Char.ofNat (c.toNat + 32)
  else if (0xC0 ≤ c.toNat && c.toNat ≤ 0xDE && c.toNat != 0xD7) then Char.ofNat (c.toNat + 32)
  else c

/-- Model of JS `String.prototype.toUpperCase` on one character:
`a`-`z` and the Latin-1 lowercase letters `à`-`þ` (except `÷`) map
up by 32; everything else is unchanged. -/
def charUpper (c : Char) : Char :=
  if ('a' ≤ c && c ≤ 'z') then Char.ofNat (c.toNat - 32)
  else if (0xE0 ≤ c.toNat && c.toNat ≤ 0xFE && c.toNat != 0xF7) then Char.ofNat (c.toNat - 32)
  else c

/-- Model of the regex class `\p{L}` (Unicode letter), restricted to
ASCII and Latin-1 letters. -/
def isLetterP (c : Char) : Bool :=
  ('A' ≤ c && c ≤ 'Z') || ('a' ≤ c && c ≤ 'z')
  || (0xC0 ≤ c.toNat && c.toNat ≤ 0xD6) || (0xD8 ≤ c.toNat && c.toNat ≤ 0xF6)
  || (0xF8 ≤ c.toNat && c.toNat ≤ 0xFF)

/-- Model of the regex class `\p{M}` (Unicode mark), restricted to the
combining diacritical marks block U+0300 - U+036F. -/
def isMarkP (c : Char) : Bool :=
  0x300 ≤ c.toNat && c.toNat ≤ 0x36F

/-- JS regex word character for `\b`: ECMAScript word boundaries are
ASCII-only (`[A-Za-z0-9_]`) even under the `u` flag. -/
def isWordChar (c : Char) : Bool :=
  ('A' ≤ c && c ≤ 'Z') || ('a' ≤ c && c ≤ 'z') || ('0' ≤ c && c ≤ '9') || c = '_'

/-- The character class of the anchored regex in `toLower`
(`[\p{L}\p{M}']`): letters, marks, or an apostrophe. -/
def isFirstWordChar (c : Char) : Bool :=
  isLetterP c || isMarkP c || c = Char.ofNat 39

/-- `toLower` of `main.ts` (lines 37-41): when `lowercaseFirstWordOnly`
is off, lowercase the whole input; when on, replace the anchored match
of `/^([\p{L}\p{M}']+)/u` by its lowercased text, leaving the rest as
is (when the first character is not in the class the regex does not
match and the input is returned unchanged, which coincides with the
empty-prefix case). -/
def toLower (lowercaseFirstWordOnly : Bool) (input : List Char) : List Char :=
  if !lowercaseFirstWordOnly then input.map charLower
  else (input.takeWhile isFirstWordChar).map charLower ++ input.dropWhile isFirstWordChar

/-- `toUpper` of `main.ts` (lines 43-45). -/
def toUpper (input : List Char) : List Char :=
  input.map charUpper

/-- The class `[\p{L}\p{M}]` used by the greedy tail of the title-case
regex. -/
def isLetterOrMark (c : Char) : Bool :=
  isLetterP c || isMarkP c

/-- The global scan of `String.replace(/\b(\p{L})([\p{L}\p{M}]*)/gu, ...)`
over the already-lowercased input, character by character.  `prevW`
says whether the character just before the current position is a JS
word character (`false` at the start of the string); `inRun` says
whether the current position is still inside the greedy
`[\p{L}\p{M}]*` tail of an earlier match, whose characters are copied
unchanged and never re-scanned.  A new match needs a word boundary —
`prevW ≠ isWordChar c` — and a `\p{L}` first character, which the
replacement uppercases. -/
def titleScan (prevW inRun : Bool) (l : List Char) : List Char :=
  match l with
  | [] => []
  | c :: rest =>
    if inRun && isLetterOrMark c then
      c :: titleScan (isWordChar c) true rest
    else if (prevW != isWordChar c) && isLetterP c then
      charUpper c :: titleScan (isWordChar c) true rest
    else
      c :: titleScan (isWordChar c) false rest

/-- `toTitleCase` of `main.ts` (lines 47-52): lowercase everything,
then capitalize the first letter of each regex word. -/
def toTitleCase (input : List Char) : List Char :=
  titleScan false false (input.map charLower)

/-- `toCapitalCase` of `main.ts` (lines 54-58): lowercase everything,
then uppercase the first character (no-op on the empty string). -/
def toCapitalCase (input : List Char) : List Char :=
  match input.map charLower with
  | [] => []
  | c :: rest => charUpper c :: rest

/-- The casing command letter captured by the `[lutc]` class. -/
inductive Cmd where
  | l | u | t | c
deriving DecidableEq, Repr

/-- Parse one character against the class `[lutc]`. -/
def parseCmd (ch : Char) : Option Cmd :=
  if ch = 'l' then some Cmd.l
  else if ch = 'u' then some Cmd.u
  else if ch = 't' then some Cmd.t
  else if ch = 'c' then some Cmd.c
  else none

/-- The `switch (cmd)` dispatch shared by all four replacers in
`transformContent` (`main.ts` lines 64-79, 85-100, 107-122, 129-144). -/
def applyCmd (flag : Bool) (cmd : Cmd) (text : List Char) : List Char :=
  match cmd with
  | Cmd.l => toLower flag text
  | Cmd.u => toUpper text
  | Cmd.t => toTitleCase text
  | Cmd.c => toCapitalCase text

/-! ### The four pattern grammars

Each regex of `main.ts` (lines 7-21) is embedded as a matcher that
recognizes the regex at the head of a list.  In every pattern each
greedy `+` class excludes the character the regex requires next, so the
backtracking regex match is deterministic: the capture is the maximal
run of class characters, and the match succeeds exactly when the
required literal characters follow it. -/

/-- Class `[^\]|\\]` of `LINK_CMD_RE` and `POSTFIX_LINK_CMD_RE`. -/
def clsLinkTarget (ch : Char) : Bool :=
  !(ch == ']' || ch == '|' || ch == '\\')

/-- Class `[^\]|]` of `ALIAS_CMD_RE` and `POSTFIX_ALIAS_CMD_RE`. -/
def clsAliasTarget (ch : Char) : Bool :=
  !(ch == ']' || ch == '|')

/-- Class `[^\]\\]` of `ALIAS_CMD_RE` (the alias capture). -/
def clsInlineAlias (ch : Char) : Bool :=
  !(ch == ']' || ch == '\\')

/-- Class `[^\]]` of `POSTFIX_ALIAS_CMD_RE` (the alias capture). -/
def clsPostfixAlias (ch : Char) : Bool :=
  !(ch == ']')

/-- Captures of the two alias forms (groups 1-3). -/
structure AliasMatch where
  linkTarget : List Char
  aliasText : List Char
  cmd : Cmd
deriving DecidableEq, Repr

/-- Captures of the two target-only forms (groups 1-2). -/
structure LinkMatch where
  linkTarget : List Char
  cmd : Cmd
deriving DecidableEq, Repr

/-- Length of the text matched by either alias form:
`[[` target `|` alias `]]` `\` cmd and `[[` target `|` alias `\` cmd `]]`
both span `target + alias + 7` characters. -/
def lenAlias (m : AliasMatch) : Nat :=
  m.linkTarget.length + m.aliasText.length + 7

/-- Length of the text matched by either target-only form:
`[[` target `]]` `\` cmd and `[[` target `\` cmd `]]` both span
`target + 6` characters. -/
def lenLink (m : LinkMatch) : Nat :=
  m.linkTarget.length + 6

/-- `POSTFIX_ALIAS_CMD_RE = /\[\[([^\]|]+)\|([^\]]+)\]\]\\([lutc])/`
matched at the head of the list. -/
def matchPostfixAlias (l : List Char) : Option AliasMatch :=
  match l with
  | '[' :: '[' :: rest =>
    if (rest.takeWhile clsAliasTarget).isEmpty then none else
    match rest.dropWhile clsAliasTarget with
    | '|' :: rest2 =>
      if (rest2.takeWhile clsPostfixAlias).isEmpty then none else
      match rest2.dropWhile clsPostfixAlias with
      | ']' :: ']' :: '\\' :: ch :: _ =>
        (parseCmd ch).map fun cmd =>
          ⟨rest.takeWhile clsAliasTarget, rest2.takeWhile clsPostfixAlias, cmd⟩
      | _ => none
    | _ => none
  | _ => none

/-- `POSTFIX_LINK_CMD_RE = /\[\[([^\]|\\]+)\]\]\\([lutc])/` matched at
the head of the list. -/
def matchPostfixLink (l : List Char) : Option LinkMatch :=
  match l with
  | '[' :: '[' :: rest =>
    if (rest.takeWhile clsLinkTarget).isEmpty then none else
    match rest.dropWhile clsLinkTarget with
    | ']' :: ']' :: '\\' :: ch :: _ =>
      (parseCmd ch).map fun cmd => ⟨rest.takeWhile clsLinkTarget, cmd⟩
    | _ => none
  | _ => none

/-- `ALIAS_CMD_RE = /\[\[([^\]|]+)\|([^\]\\]+)\\([lutc])\]\]/` matched
at the head of the list. -/
def matchInlineAlias (l : List Char) : Option AliasMatch :=
  match l with
  | '[' :: '[' :: rest =>
    if (rest.takeWhile clsAliasTarget).isEmpty then none else
    match rest.dropWhile clsAliasTarget with
    | '|' :: rest2 =>
      if (rest2.takeWhile clsInlineAlias).isEmpty then none else
      match rest2.dropWhile clsInlineAlias with
      | '\\' :: ch :: ']' :: ']' :: _ =>
        (parseCmd ch).map fun cmd =>
          ⟨rest.takeWhile clsAliasTarget, rest2.takeWhile clsInlineAlias, cmd⟩
      | _ => none
    | _ => none
  | _ => none

/-- `LINK_CMD_RE = /\[\[([^\]|\\]+)\\([lutc])\]\]/` matched at the head
of the list. -/
def matchInlineLink (l : List Char) : Option LinkMatch :=
  match l with
  | '[' :: '[' :: rest =>
    if (rest.takeWhile clsLinkTarget).isEmpty then none else
    match rest.dropWhile clsLinkTarget with
    | '\\' :: ch :: ']' :: ']' :: _ =>
      (parseCmd ch).map fun cmd => ⟨rest.takeWhile clsLinkTarget, cmd⟩
    | _ => none
  | _ => none

/-- Build `[[target|alias]]`. -/
def wikiAlias (target als : List Char) : List Char :=
  '[' :: '[' :: target ++ '|' :: als ++ [']', ']']

/-- Build `[[target]]`. -/
def wikiPlain (target : List Char) : List Char :=
  '[' :: '[' :: target ++ [']', ']']

/-- `postfixAliasReplacer` of `main.ts` (lines 62-81): always keep the
alias form. -/
def postfixAliasReplacer (flag : Bool) (m : AliasMatch) : List Char :=
  wikiAlias m.linkTarget (applyCmd flag m.cmd m.aliasText)

/-- `postfixLinkReplacer` of `main.ts` (lines 83-102): drop the alias
when the transform is a no-op. -/
def postfixLinkReplacer (flag : Bool) (m : LinkMatch) : List Char :=
  if applyCmd flag m.cmd m.linkTarget = m.linkTarget then wikiPlain m.linkTarget
  else wikiAlias m.linkTarget (applyCmd flag m.cmd m.linkTarget)

/-- `aliasReplacer` of `main.ts` (lines 105-124): always keep the alias
form. -/
def aliasReplacer (flag : Bool) (m : AliasMatch) : List Char :=
  wikiAlias m.linkTarget (applyCmd flag m.cmd m.aliasText)

/-- `linkReplacer` of `main.ts` (lines 127-148): drop the inline
command and keep a plain link when the transform is a no-op. -/
def linkReplacer (flag : Bool) (m : LinkMatch) : List Char :=
  if applyCmd flag m.cmd m.linkTarget = m.linkTarget then wikiPlain m.linkTarget
  else wikiAlias m.linkTarget (applyCmd flag m.cmd m.linkTarget)

/-! ### The four global substitution passes

JS `String.replace` with a `g` regex rewrites the leftmost
non-overlapping matches of the input, resuming the scan after each
matched span; replacement text is never rescanned by the same pass.
Each pass is written with a `skip` counter: after emitting a
replacement the remaining `length - 1` characters of the matched span
are consumed without being re-scanned. -/

/-- Scanner of `replace(POSTFIX_ALIAS_CMD_RE, postfixAliasReplacer)`. -/
def replacePostfixAliasAux (flag : Bool) (skip : Nat) (l : List Char) : List Char :=
  match l with
  | [] => []
  | c :: rest =>
    match skip with
    | s + 1 => replacePostfixAliasAux flag s rest
    | 0 =>
      match matchPostfixAlias (c :: rest) with
      | some m =>
        postfixAliasReplacer flag m ++ replacePostfixAliasAux flag (lenAlias m - 1) rest
      | none => c :: replacePostfixAliasAux flag 0 rest

/-- Global substitution of `POSTFIX_ALIAS_CMD_RE` (`main.ts` line 151). -/
def replacePostfixAlias (flag : Bool) (l : List Char) : List Char :=
  replacePostfixAliasAux flag 0 l

/-- Scanner of `replace(POSTFIX_LINK_CMD_RE, postfixLinkReplacer)`. -/
def replacePostfixLinkAux (flag : Bool) (skip : Nat) (l : List Char) : List Char :=
  match l with
  | [] => []
  | c :: rest =>
    match skip with
    | s + 1 => replacePostfixLinkAux flag s rest
    | 0 =>
      match matchPostfixLink (c :: rest) with
      | some m =>
        postfixLinkReplacer flag m ++ replacePostfixLinkAux flag (lenLink m - 1) rest
      | none => c :: replacePostfixLinkAux flag 0 rest

/-- Global substitution of `POSTFIX_LINK_CMD_RE` (`main.ts` line 152). -/
def replacePostfixLink (flag : Bool) (l : List Char) : List Char :=
  replacePostfixLinkAux flag 0 l

/-- Scanner of `replace(ALIAS_CMD_RE, aliasReplacer)`. -/
def replaceInlineAliasAux (flag : Bool) (skip : Nat) (l : List Char) : List Char :=
  match l with
  | [] => []
  | c :: rest =>
    match skip with
    | s + 1 => replaceInlineAliasAux flag s rest
    | 0 =>
      match matchInlineAlias (c :: rest) with
      | some m =>
        aliasReplacer flag m ++ replaceInlineAliasAux flag (lenAlias m - 1) rest
      | none => c :: replaceInlineAliasAux flag 0 rest

/-- Global substitution of `ALIAS_CMD_RE` (`main.ts` line 153). -/
def replaceInlineAlias (flag : Bool) (l : List Char) : List Char :=
  replaceInlineAliasAux flag 0 l

/-- Scanner of `replace(LINK_CMD_RE, linkReplacer)`. -/
def replaceInlineLinkAux (flag : Bool) (skip : Nat) (l : List Char) : List Char :=
  match l with
  | [] => []
  | c :: rest =>
    match skip with
    | s + 1 => replaceInlineLinkAux flag s rest
    | 0 =>
      match matchInlineLink (c :: rest) with
      | some m =>
        linkReplacer flag m ++ replaceInlineLinkAux flag (lenLink m - 1) rest
      | none => c :: replaceInlineLinkAux flag 0 rest

/-- Global substitution of `LINK_CMD_RE` (`main.ts` line 154). -/
def replaceInlineLink (flag : Bool) (l : List Char) : List Char :=
  replaceInlineLinkAux flag 0 l

/-- `transformContent` of `main.ts` (lines 60-155): the four global
substitutions applied in order, each to the result of the previous
one. -/
def transformContent (flag : Bool) (input : List Char) : List Char :=
  let result := replacePostfixAlias flag input
  let result := replacePostfixLink flag result
  let result := replaceInlineAlias flag result
  replaceInlineLink flag result

/-! ### The caret search of `applyTransformToEditor`

Each `while ((m = re.exec(original)) !== null)` loop of
`applyTransformToEditor` (`main.ts` lines 178-332) walks the
non-overlapping matches of one pattern over the original text, left to
right, and stops at the first match whose inclusive span
`[start, start + length]` contains the caret offset. -/

/-- Walk the `POSTFIX_ALIAS_CMD_RE` matches of the suffix `l`, which
starts at absolute offset `pos`, and return the first whose inclusive
span contains `caret` (`main.ts` lines 179-213).  A `skip` counter
consumes the rest of a rejected match's span, as `exec` resumes at its
end. -/
def findPostfixAliasAux (caret : Nat) (skip pos : Nat) (l : List Char) :
    Option (Nat × AliasMatch) :=
  match l with
  | [] => none
  | _ :: rest =>
    match skip with
    | s + 1 => findPostfixAliasAux caret s (pos + 1) rest
    | 0 =>
      match matchPostfixAlias l with
      | some m =>
        if pos ≤ caret ∧ caret ≤ pos + lenAlias m then some (pos, m)
        else findPostfixAliasAux caret (lenAlias m - 1) (pos + 1) rest
      | none => findPostfixAliasAux caret 0 (pos + 1) rest

/-- First `POSTFIX_ALIAS_CMD_RE` occurrence whose span contains the
caret. -/
def findPostfixAlias (caret : Nat) (l : List Char) : Option (Nat × AliasMatch) :=
  findPostfixAliasAux caret 0 0 l

/-- Walk the `POSTFIX_LINK_CMD_RE` matches (`main.ts` lines 216-250). -/
def findPostfixLinkAux (caret : Nat) (skip pos : Nat) (l : List Char) :
    Option (Nat × LinkMatch) :=
  match l with
  | [] => none
  | _ :: rest =>
    match skip with
    | s + 1 => findPostfixLinkAux caret s (pos + 1) rest
    | 0 =>
      match matchPostfixLink l with
      | some m =>
        if pos ≤ caret ∧ caret ≤ pos + lenLink m then some (pos, m)
        else findPostfixLinkAux caret (lenLink m - 1) (pos + 1) rest
      | none => findPostfixLinkAux caret 0 (pos + 1) rest

/-- First `POSTFIX_LINK_CMD_RE` occurrence whose span contains the
caret. -/
def findPostfixLink (caret : Nat) (l : List Char) : Option (Nat × LinkMatch) :=
  findPostfixLinkAux caret 0 0 l

/-- Walk the `ALIAS_CMD_RE` matches (`main.ts` lines 253-289). -/
def findInlineAliasAux (caret : Nat) (skip pos : Nat) (l : List Char) :
    Option (Nat × AliasMatch) :=
  match l with
  | [] => none
  | _ :: rest =>
    match skip with
    | s + 1 => findInlineAliasAux caret s (pos + 1) rest
    | 0 =>
      match matchInlineAlias l with
      | some m =>
        if pos ≤ caret ∧ caret ≤ pos + lenAlias m then some (pos, m)
        else findInlineAliasAux caret (lenAlias m - 1) (pos + 1) rest
      | none => findInlineAliasAux caret 0 (pos + 1) rest

/-- First `ALIAS_CMD_RE` occurrence whose span contains the caret. -/
def findInlineAlias (caret : Nat) (l : List Char) : Option (Nat × AliasMatch) :=
  findInlineAliasAux caret 0 0 l

/-- Walk the `LINK_CMD_RE` matches (`main.ts` lines 292-332). -/
def findInlineLinkAux (caret : Nat) (skip pos : Nat) (l : List Char) :
    Option (Nat × LinkMatch) :=
  match l with
  | [] => none
  | _ :: rest =>
    match skip with
    | s + 1 => findInlineLinkAux caret s (pos + 1) rest
    | 0 =>
      match matchInlineLink l with
      | some m =>
        if pos ≤ caret ∧ caret ≤ pos + lenLink m then some (pos, m)
        else findInlineLinkAux caret (lenLink m - 1) (pos + 1) rest
      | none => findInlineLinkAux caret 0 (pos + 1) rest

/-- First `LINK_CMD_RE` occurrence whose span contains the caret. -/
def findInlineLink (caret : Nat) (l : List Char) : Option (Nat × LinkMatch) :=
  findInlineLinkAux caret 0 0 l

/-- The enclosing-occurrence search of `applyTransformToEditor`: the
four forms are tried in the fixed order postfix-alias, postfix-link,
inline-alias, inline-link against the original text; the result is the
match start together with the single-occurrence replacement text
(`transformedMatchText`), computed by the same rule as the
corresponding replacer (`main.ts` lines 166-332). -/
def caretTarget (flag : Bool) (original : List Char) (caret : Nat) : Option (Nat × List Char) :=
  match findPostfixAlias caret original with
  | some (start, m) => some (start, postfixAliasReplacer flag m)
  | none =>
  match findPostfixLink caret original with
  | some (start, m) => some (start, postfixLinkReplacer flag m)
  | none =>
  match findInlineAlias caret original with
  | some (start, m) => some (start, aliasReplacer flag m)
  | none =>
  match findInlineLink caret original with
  | some (start, m) => some (start, linkReplacer flag m)
  | none => none

/-- What one invocation writes back to the editor: `setText = some t`
models `editor.setValue(t)`, `setCursor = some n` models
`editor.setCursor(editor.offsetToPos(n))`; `none` means the host is
not called. -/
structure EditorEffect where
  setText : Option (List Char)
  setCursor : Option Nat
deriving DecidableEq, Repr

/-- `applyTransformToEditor` of `main.ts` (lines 157-353) as a pure
function from the editor snapshot (full text and caret offset) to the
effect on the editor: nothing is written when the rewrite is a no-op;
otherwise the text is replaced and, when the caret was inside a
matched occurrence, the caret moves to the transformed prefix length
plus the length of that occurrence's replacement. -/
def applyTransformToEditor (flag : Bool) (original : List Char) (caret : Nat) : EditorEffect :=
  let found := caretTarget flag original caret
  let transformed := transformContent flag original
  if transformed = original then ⟨none, none⟩
  else
    ⟨some transformed,
     found.map fun p => (transformContent flag (original.take p.1)).length + p.2.length⟩

end LinkCasing

namespace LinkCasing

/-! ### Matcher inversion lemmas -/

/-- Elements of `dropWhile p l` are elements of `l`. -/
theorem mem_of_mem_dropWhile {p : Char → Bool} {x : Char} {l : List Char}
    (h : x ∈ l.dropWhile p) : x ∈ l :=
  (List.dropWhile_sublist p).subset h

/-- A successful `POSTFIX_ALIAS_CMD_RE` match contains a backslash. -/
theorem matchPostfixAlias_backslash {l : List Char} {m : AliasMatch}
    (h : matchPostfixAlias l = some m) : '\\' ∈ l := by
  unfold matchPostfixAlias at h
  split at h
  · split at h
    · exact absurd h (by simp)
    · split at h
      · split at h
        · exact absurd h (by simp)
        · split at h
          · rename_i lX rest hne1 x1 rest2 heq1 hne2 x2 ch tail heq2
            have s1 : ('\\' : Char) ∈ List.dropWhile clsPostfixAlias rest2 := by
              rw [heq2]; simp
            have s3 : ('\\' : Char) ∈ List.dropWhile clsAliasTarget rest := by
              rw [heq1]; exact List.mem_cons_of_mem _ (mem_of_mem_dropWhile s1)
            exact List.mem_cons_of_mem _
              (List.mem_cons_of_mem _ (mem_of_mem_dropWhile s3))
          · exact absurd h (by simp)
      · exact absurd h (by simp)
  · exact absurd h (by simp)

/-- A successful `POSTFIX_LINK_CMD_RE` match contains a backslash. -/
theorem matchPostfixLink_backslash {l : List Char} {m : LinkMatch}
    (h : matchPostfixLink l = some m) : '\\' ∈ l := by
  unfold matchPostfixLink at h
  split at h
  · split at h
    · exact absurd h (by simp)
    · split at h
      · rename_i lX rest hne1 x1 ch tail heq1
        have s1 : ('\\' : Char) ∈ List.dropWhile clsLinkTarget rest := by
          rw [heq1]; simp
        exact List.mem_cons_of_mem _
          (List.mem_cons_of_mem _ (mem_of_mem_dropWhile s1))
      · exact absurd h (by simp)
  · exact absurd h (by simp)

/-- A successful `ALIAS_CMD_RE` match contains a backslash. -/
theorem matchInlineAlias_backslash {l : List Char} {m : AliasMatch}
    (h : matchInlineAlias l = some m) : '\\' ∈ l := by
  unfold matchInlineAlias at h
  split at h
  · split at h
    · exact absurd h (by simp)
    · split at h
      · split at h
        · exact absurd h (by simp)
        · split at h
          · rename_i lX rest hne1 x1 rest2 heq1 hne2 x2 ch tail heq2
            have s1 : ('\\' : Char) ∈ List.dropWhile clsInlineAlias rest2 := by
              rw [heq2]; simp
            have s3 : ('\\' : Char) ∈ List.dropWhile clsAliasTarget rest := by
              rw [heq1]; exact List.mem_cons_of_mem _ (mem_of_mem_dropWhile s1)
            exact List.mem_cons_of_mem _
              (List.mem_cons_of_mem _ (mem_of_mem_dropWhile s3))
          · exact absurd h (by simp)
      · exact absurd h (by simp)
  · exact absurd h (by simp)

/-- A successful `LINK_CMD_RE` match contains a backslash. -/
theorem matchInlineLink_backslash {l : List Char} {m : LinkMatch}
    (h : matchInlineLink l = some m) : '\\' ∈ l := by
  unfold matchInlineLink at h
  split at h
  · split at h
    · exact absurd h (by simp)
    · split at h
      · rename_i lX rest hne1 x1 ch tail heq1
        have s1 : ('\\' : Char) ∈ List.dropWhile clsLinkTarget rest := by
          rw [heq1]; simp
        exact List.mem_cons_of_mem _
          (List.mem_cons_of_mem _ (mem_of_mem_dropWhile s1))
      · exact absurd h (by simp)
  · exact absurd h (by simp)

/-- The captures of a `POSTFIX_ALIAS_CMD_RE` match are nonempty. -/
theorem matchPostfixAlias_captures {l : List Char} {m : AliasMatch}
    (h : matchPostfixAlias l = some m) : m.linkTarget ≠ [] ∧ m.aliasText ≠ [] := by
  unfold matchPostfixAlias at h
  split at h
  · split at h
    · exact absurd h (by simp)
    · split at h
      · split at h
        · exact absurd h (by simp)
        · split at h
          · obtain ⟨cmd, hc, rfl⟩ := Option.map_eq_some'.mp h
            rename_i lX rest hne1 x1 rest2 heq1 hne2 x2 ch tail heq2
            refine ⟨fun hnil => hne1 ?_, fun hnil => hne2 ?_⟩
            · rw [show List.takeWhile clsAliasTarget rest = [] from hnil]; rfl
            · rw [show List.takeWhile clsPostfixAlias rest2 = [] from hnil]; rfl
          · exact absurd h (by simp)
      · exact absurd h (by simp)
  · exact absurd h (by simp)

/-- The captures of an `ALIAS_CMD_RE` match are nonempty. -/
theorem matchInlineAlias_captures {l : List Char} {m : AliasMatch}
    (h : matchInlineAlias l = some m) : m.linkTarget ≠ [] ∧ m.aliasText ≠ [] := by
  unfold matchInlineAlias at h
  split at h
  · split at h
    · exact absurd h (by simp)
    · split at h
      · split at h
        · exact absurd h (by simp)
        · split at h
          · obtain ⟨cmd, hc, rfl⟩ := Option.map_eq_some'.mp h
            rename_i lX rest hne1 x1 rest2 heq1 hne2 x2 ch tail heq2
            refine ⟨fun hnil => hne1 ?_, fun hnil => hne2 ?_⟩
            · rw [show List.takeWhile clsAliasTarget rest = [] from hnil]; rfl
            · rw [show List.takeWhile clsInlineAlias rest2 = [] from hnil]; rfl
          · exact absurd h (by simp)
      · exact absurd h (by simp)
  · exact absurd h (by simp)

/-- The capture of a `POSTFIX_LINK_CMD_RE` match is nonempty. -/
theorem matchPostfixLink_captures {l : List Char} {m : LinkMatch}
    (h : matchPostfixLink l = some m) : m.linkTarget ≠ [] := by
  unfold matchPostfixLink at h
  split at h
  · split at h
    · exact absurd h (by simp)
    · split at h
      · obtain ⟨cmd, hc, rfl⟩ := Option.map_eq_some'.mp h
        rename_i lX rest hne1 x1 ch tail heq1
        refine fun hnil => hne1 ?_
        rw [show List.takeWhile clsLinkTarget rest = [] from hnil]; rfl
      · exact absurd h (by simp)
  · exact absurd h (by simp)

/-- The capture of a `LINK_CMD_RE` match is nonempty. -/
theorem matchInlineLink_captures {l : List Char} {m : LinkMatch}
    (h : matchInlineLink l = some m) : m.linkTarget ≠ [] := by
  unfold matchInlineLink at h
  split at h
  · split at h
    · exact absurd h (by simp)
    · split at h
      · obtain ⟨cmd, hc, rfl⟩ := Option.map_eq_some'.mp h
        rename_i lX rest hne1 x1 ch tail heq1
        refine fun hnil => hne1 ?_
        rw [show List.takeWhile clsLinkTarget rest = [] from hnil]; rfl
      · exact absurd h (by simp)
  · exact absurd h (by simp)

end LinkCasing

namespace LinkCasing

/-! ### Occurrence tests and no-op passes -/

/-- Some position of `l` starts a `POSTFIX_ALIAS_CMD_RE` match. -/
def hasPostfixAlias : List Char → Bool
  | [] => false
  | c :: rest => (matchPostfixAlias (c :: rest)).isSome || hasPostfixAlias rest

/-- Some position of `l` starts a `POSTFIX_LINK_CMD_RE` match. -/
def hasPostfixLink : List Char → Bool
  | [] => false
  | c :: rest => (matchPostfixLink (c :: rest)).isSome || hasPostfixLink rest

/-- Some position of `l` starts an `ALIAS_CMD_RE` match. -/
def hasInlineAlias : List Char → Bool
  | [] => false
  | c :: rest => (matchInlineAlias (c :: rest)).isSome || hasInlineAlias rest

/-- Some position of `l` starts a `LINK_CMD_RE` match. -/
def hasInlineLink : List Char → Bool
  | [] => false
  | c :: rest => (matchInlineLink (c :: rest)).isSome || hasInlineLink rest

/-- A pass over a text without occurrences is the identity. -/
theorem replacePostfixAlias_id {flag : Bool} {l : List Char}
    (h : hasPostfixAlias l = false) : replacePostfixAlias flag l = l := by
  show replacePostfixAliasAux flag 0 l = l
  induction l with
  | nil => rfl
  | cons c rest ih =>
    have h1 : matchPostfixAlias (c :: rest) = none := by
      cases hm : matchPostfixAlias (c :: rest) with
      | none => rfl
      | some m => simp [hasPostfixAlias, hm] at h
    have h2 : hasPostfixAlias rest = false := by
      simp [hasPostfixAlias, h1] at h
      simpa using h
    rw [replacePostfixAliasAux, h1]
    simpa using ih h2

/-- A pass over a text without occurrences is the identity. -/
theorem replacePostfixLink_id {flag : Bool} {l : List Char}
    (h : hasPostfixLink l = false) : replacePostfixLink flag l = l := by
  show replacePostfixLinkAux flag 0 l = l
  induction l with
  | nil => rfl
  | cons c rest ih =>
    have h1 : matchPostfixLink (c :: rest) = none := by
      cases hm : matchPostfixLink (c :: rest) with
      | none => rfl
      | some m => simp [hasPostfixLink, hm] at h
    have h2 : hasPostfixLink rest = false := by
      simp [hasPostfixLink, h1] at h
      simpa using h
    rw [replacePostfixLinkAux, h1]
    simpa using ih h2

/-- A pass over a text without occurrences is the identity. -/
theorem replaceInlineAlias_id {flag : Bool} {l : List Char}
    (h : hasInlineAlias l = false) : replaceInlineAlias flag l = l := by
  show replaceInlineAliasAux flag 0 l = l
  induction l with
  | nil => rfl
  | cons c rest ih =>
    have h1 : matchInlineAlias (c :: rest) = none := by
      cases hm : matchInlineAlias (c :: rest) with
      | none => rfl
      | some m => simp [hasInlineAlias, hm] at h
    have h2 : hasInlineAlias rest = false := by
      simp [hasInlineAlias, h1] at h
      simpa using h
    rw [replaceInlineAliasAux, h1]
    simpa using ih h2

/-- A pass over a text without occurrences is the identity. -/
theorem replaceInlineLink_id {flag : Bool} {l : List Char}
    (h : hasInlineLink l = false) : replaceInlineLink flag l = l := by
  show replaceInlineLinkAux flag 0 l = l
  induction l with
  | nil => rfl
  | cons c rest ih =>
    have h1 : matchInlineLink (c :: rest) = none := by
      cases hm : matchInlineLink (c :: rest) with
      | none => rfl
      | some m => simp [hasInlineLink, hm] at h
    have h2 : hasInlineLink rest = false := by
      simp [hasInlineLink, h1] at h
      simpa using h
    rw [replaceInlineLinkAux, h1]
    simpa using ih h2

/-- A backslash-free text has no `POSTFIX_ALIAS_CMD_RE` occurrence. -/
theorem hasPostfixAlias_eq_false {l : List Char} (h : '\\' ∉ l) :
    hasPostfixAlias l = false := by
  induction l with
  | nil => rfl
  | cons c rest ih =>
    have h1 : matchPostfixAlias (c :: rest) = none := by
      cases hm : matchPostfixAlias (c :: rest) with
      | none => rfl
      | some m => exact absurd (matchPostfixAlias_backslash hm) h
    have h2 : '\\' ∉ rest := fun hx => h (List.mem_cons_of_mem _ hx)
    simp [hasPostfixAlias, h1, ih h2]

/-- A backslash-free text has no `POSTFIX_LINK_CMD_RE` occurrence. -/
theorem hasPostfixLink_eq_false {l : List Char} (h : '\\' ∉ l) :
    hasPostfixLink l = false := by
  induction l with
  | nil => rfl
  | cons c rest ih =>
    have h1 : matchPostfixLink (c :: rest) = none := by
      cases hm : matchPostfixLink (c :: rest) with
      | none => rfl
      | some m => exact absurd (matchPostfixLink_backslash hm) h
    have h2 : '\\' ∉ rest := fun hx => h (List.mem_cons_of_mem _ hx)
    simp [hasPostfixLink, h1, ih h2]

/-- A backslash-free text has no `ALIAS_CMD_RE` occurrence. -/
theorem hasInlineAlias_eq_false {l : List Char} (h : '\\' ∉ l) :
    hasInlineAlias l = false := by
  induction l with
  | nil => rfl
  | cons c rest ih =>
    have h1 : matchInlineAlias (c :: rest) = none := by
      cases hm : matchInlineAlias (c :: rest) with
      | none => rfl
      | some m => exact absurd (matchInlineAlias_backslash hm) h
    have h2 : '\\' ∉ rest := fun hx => h (List.mem_cons_of_mem _ hx)
    simp [hasInlineAlias, h1, ih h2]

/-- A backslash-free text has no `LINK_CMD_RE` occurrence. -/
theorem hasInlineLink_eq_false {l : List Char} (h : '\\' ∉ l) :
    hasInlineLink l = false := by
  induction l with
  | nil => rfl
  | cons c rest ih =>
    have h1 : matchInlineLink (c :: rest) = none := by
      cases hm : matchInlineLink (c :: rest) with
      | none => rfl
      | some m => exact absurd (matchInlineLink_backslash hm) h
    have h2 : '\\' ∉ rest := fun hx => h (List.mem_cons_of_mem _ hx)
    simp [hasInlineLink, h1, ih h2]

/-- The rewrite pass leaves a text without occurrences unchanged. -/
theorem transformContent_eq_self {flag : Bool} {l : List Char}
    (h1 : hasPostfixAlias l = false) (h2 : hasPostfixLink l = false)
    (h3 : hasInlineAlias l = false) (h4 : hasInlineLink l = false) :
    transformContent flag l = l := by
  show replaceInlineLink flag (replaceInlineAlias flag
    (replacePostfixLink flag (replacePostfixAlias flag l))) = l
  rw [replacePostfixAlias_id h1, replacePostfixLink_id h2,
    replaceInlineAlias_id h3, replaceInlineLink_id h4]

/-- The rewrite pass leaves a backslash-free text unchanged. -/
theorem transformContent_eq_self_of_no_backslash {flag : Bool} {l : List Char}
    (h : '\\' ∉ l) : transformContent flag l = l :=
  transformContent_eq_self (hasPostfixAlias_eq_false h) (hasPostfixLink_eq_false h)
    (hasInlineAlias_eq_false h) (hasInlineLink_eq_false h)

end LinkCasing

namespace LinkCasing

/-- Modelled from the spec: "for every maximal run of letters (a word),
its first letter uppercased" — the word-at-a-time capitalization the
spec describes, written for texts of letters and spaces.  `inWord`
records whether the previous character belonged to the current word. -/
def specTitleWords (inWord : Bool) : List Char → List Char
  | [] => []
  | c :: rest =>
    if c = ' ' then c :: specTitleWords false rest
    else (if inWord then c else charUpper c) :: specTitleWords true rest

/-- On lowercase-ASCII-and-space texts the title scan capitalizes the
first letter of every space-separated word. -/
theorem titleScan_spec {s : List Char}
    (h : ∀ c ∈ s, ('a' ≤ c && c ≤ 'z') = true ∨ c = ' ') :
    titleScan false false s = specTitleWords false s ∧
      titleScan true true s = specTitleWords true s := by
  induction s with
  | nil => exact ⟨rfl, rfl⟩
  | cons c rest ih =>
    have hc := h c (List.mem_cons_self c rest)
    obtain ⟨ih1, ih2⟩ := ih (fun d hd => h d (List.mem_cons_of_mem _ hd))
    cases hc with
    | inr hsp =>
      subst hsp
      have e1 : isLetterOrMark ' ' = false := by decide
      have e2 : isLetterP ' ' = false := by decide
      have e3 : isWordChar ' ' = false := by decide
      constructor <;>
        simp [titleScan, specTitleWords, e1, e2, e3, ih1]
    | inl hl =>
      obtain ⟨h1, h2⟩ := Bool.and_eq_true_iff.mp hl
      have hsp : c ≠ ' ' := by
        intro e; subst e; exact absurd h1 (by decide)
      have e1 : isWordChar c = true := by simp [isWordChar, h1, h2]
      have e2 : isLetterP c = true := by simp [isLetterP, h1, h2]
      have e3 : isLetterOrMark c = true := by simp [isLetterOrMark, e2]
      constructor <;>
        simp [titleScan, specTitleWords, e1, e2, e3, ih2, hsp]

end LinkCasing

namespace LinkCasing

/-! ### The claims -/

/-- C1, counterexample: the rewrite pass is not idempotent.  One pass
over `[[A\l]]\u` rewrites the inline-link occurrence to `[[A|a]]\u`,
which the postfix-alias form matches, so a second pass changes the
text again (to `[[A|A]]`). -/
theorem claim_C1_counterexample :
    transformContent false (transformContent false ("[[A\\l]]\\u".data)) ≠
      transformContent false ("[[A\\l]]\\u".data) := by decide

/-- C1, amended: one pass suffices whenever its output carries no
residual backslash: if `rewrite(s)` contains no `\` then
`rewrite(rewrite(s)) = rewrite(s)`.  (Every pattern form requires a
backslash, so such an output has no occurrence left.) -/
theorem claim_C1_theorem (flag : Bool) (s : List Char)
    (h : '\\' ∉ transformContent flag s) :
    transformContent flag (transformContent flag s) = transformContent flag s :=
  transformContent_eq_self_of_no_backslash h

/-- C1, witness: `[[A\l]]` rewrites to `[[A|a]]`, which is
backslash-free, so the amended idempotence applies to it. -/
theorem claim_C1_witness :
    ('\\' ∉ transformContent false ("[[A\\l]]".data)) ∧
      transformContent false (transformContent false ("[[A\\l]]".data)) =
        transformContent false ("[[A\\l]]".data) :=
  ⟨by decide, claim_C1_theorem false _ (by decide)⟩

/-- C2, counterexample: the title transform does not use Unicode
word-boundary semantics.  JS `\b` is ASCII-based, so the leading
non-ASCII letter of `élan vital` is not uppercased (the claim demands
`Élan Vital`), and the letter run of `123abc` — preceded by a digit,
which is an ASCII word character — gets no capital at all (the claim
demands the run's first letter uppercased). -/
theorem claim_C2_counterexample :
    toTitleCase ("élan vital".data) = ("éLan Vital".data) ∧
      toTitleCase ("élan vital".data) ≠ ("Élan Vital".data) ∧
      toTitleCase ("123abc".data) = ("123abc".data) ∧
      toTitleCase ("123abc".data) ≠ ("123Abc".data) :=
  ⟨by decide, by decide, by decide, by decide⟩

/-- C2, amended: the title transform lowercases the whole input and
then uppercases the first letter of each letter run that starts at an
ASCII (`\b`) word boundary; on inputs whose lowercased text consists
of ASCII letters and spaces this capitalizes the first letter of every
space-separated word, but a run whose first letter is non-ASCII at the
start of the string, or a run preceded by a digit, keeps its first
letter unchanged. -/
theorem claim_C2_theorem :
    (∀ s : List Char,
        (∀ c ∈ s.map charLower, ('a' ≤ c && c ≤ 'z') = true ∨ c = ' ') →
        toTitleCase s = specTitleWords false (s.map charLower)) ∧
      toTitleCase ("ALL CAPS TITLE".data) = ("All Caps Title".data) ∧
      toTitleCase ("élan vital".data) = ("éLan Vital".data) ∧
      toTitleCase ("123abc".data) = ("123abc".data) :=
  ⟨fun _ h => (titleScan_spec h).1, by decide, by decide, by decide⟩

/-- C2, witness for the amended statement at `hello World`. -/
theorem claim_C2_witness :
    (∀ c ∈ ("hello World".data).map charLower, ('a' ≤ c && c ≤ 'z') = true ∨ c = ' ') ∧
      toTitleCase ("hello World".data) =
        specTitleWords false (("hello World".data).map charLower) :=
  ⟨by decide, claim_C2_theorem.1 ("hello World".data) (by decide)⟩

/-- C3: when the caret search finds an enclosing occurrence (forms
tried in the order postfix-alias, postfix-link, inline-alias,
inline-link over the original text, spans inclusive at both ends) and
the global rewrite changes the text, the new caret offset is the
length of the rewrite of the text before the occurrence plus the
length of the occurrence's replacement. -/
theorem claim_C3_theorem (flag : Bool) (T : List Char) (p start : Nat) (mt : List Char)
    (hfind : caretTarget flag T p = some (start, mt))
    (hchange : transformContent flag T ≠ T) :
    (applyTransformToEditor flag T p).setCursor =
      some ((transformContent flag (T.take start)).length + mt.length) := by
  unfold applyTransformToEditor
  simp only [hfind]
  rw [if_neg hchange]
  simp

/-- C3, witness: caret at offset 3 inside `[[A\l]]`. -/
theorem claim_C3_witness :
    caretTarget false ("[[A\\l]]".data) 3 = some (0, "[[A|a]]".data) ∧
      transformContent false ("[[A\\l]]".data) ≠ "[[A\\l]]".data ∧
      (applyTransformToEditor false ("[[A\\l]]".data) 3).setCursor =
        some ((transformContent false (("[[A\\l]]".data).take 0)).length
          + ("[[A|a]]".data).length) :=
  ⟨by decide, by decide, claim_C3_theorem false _ 3 0 _ (by decide) (by decide)⟩

/-- C4: both target-only replacers emit a plain `[[target]]` exactly
when the transform leaves the target unchanged, and an aliased link
otherwise; concretely `[[LINK\u]]` rewrites to `[[LINK]]`. -/
theorem claim_C4_theorem :
    (∀ (flag : Bool) (m : LinkMatch),
        linkReplacer flag m =
          if applyCmd flag m.cmd m.linkTarget = m.linkTarget then wikiPlain m.linkTarget
          else wikiAlias m.linkTarget (applyCmd flag m.cmd m.linkTarget)) ∧
    (∀ (flag : Bool) (m : LinkMatch),
        postfixLinkReplacer flag m =
          if applyCmd flag m.cmd m.linkTarget = m.linkTarget then wikiPlain m.linkTarget
          else wikiAlias m.linkTarget (applyCmd flag m.cmd m.linkTarget)) ∧
    (∀ flag : Bool, transformContent flag ("[[LINK\\u]]".data) = "[[LINK]]".data) :=
  ⟨fun _ _ => rfl, fun _ _ => rfl, by decide⟩

/-- C5: both alias replacers always emit `[[target|transformedAlias]]`,
even when the transform is a no-op — `[[x|a\l]]` keeps its alias as
`[[x|a]]` instead of collapsing to `[[x]]`. -/
theorem claim_C5_theorem :
    (∀ (flag : Bool) (m : AliasMatch),
        postfixAliasReplacer flag m =
          wikiAlias m.linkTarget (applyCmd flag m.cmd m.aliasText)) ∧
    (∀ (flag : Bool) (m : AliasMatch),
        aliasReplacer flag m =
          wikiAlias m.linkTarget (applyCmd flag m.cmd m.aliasText)) ∧
    (∀ flag : Bool, transformContent flag ("[[x|a\\l]]".data) = "[[x|a]]".data) ∧
    transformContent false ("[[link name|ALIAS\\l]]".data) = "[[link name|alias]]".data :=
  ⟨fun _ _ => rfl, fun _ _ => rfl, by decide, by decide⟩

/-- C6: the rewrite pass is the sequential composition of the four
global substitutions in the order postfix-alias, postfix-link,
inline-alias, inline-link, each scanning the previous result; the
sequencing is observable: `[[a|B\u]]\c` is first rewritten by the
postfix-alias pass to `[[a|B\u]]`, whose inline command the
inline-alias pass then consumes, giving `[[a|B]]`. -/
theorem claim_C6_theorem :
    (∀ (flag : Bool) (s : List Char),
        transformContent flag s =
          replaceInlineLink flag (replaceInlineAlias flag
            (replacePostfixLink flag (replacePostfixAlias flag s)))) ∧
    transformContent false ("[[a|B\\u]]\\c".data) = "[[a|B]]".data :=
  ⟨fun _ _ => rfl, by decide⟩

/-- C7: with `lowercaseFirstWordOnly` disabled the lower transform
lowercases every character; with it enabled it lowercases exactly the
leading maximal run of letters/marks/apostrophes and appends the rest
of the input verbatim; concretely `[[Link Name\l]]` becomes
`[[Link Name|link Name]]` under the flag. -/
theorem claim_C7_theorem :
    (∀ s : List Char, toLower false s = s.map charLower) ∧
    (∀ s : List Char,
        toLower true s =
          (s.takeWhile isFirstWordChar).map charLower ++ s.dropWhile isFirstWordChar) ∧
    transformContent true ("[[Link Name\\l]]".data) = "[[Link Name|link Name]]".data :=
  ⟨fun _ => rfl, fun _ => rfl, by decide⟩

/-- C8: when the rewrite output equals the input nothing is written
back — no text replacement and no caret move — and the caret is only
ever moved in an invocation that also replaces the text. -/
theorem claim_C8_theorem :
    (∀ (flag : Bool) (T : List Char) (p : Nat),
        transformContent flag T = T → applyTransformToEditor flag T p = ⟨none, none⟩) ∧
    (∀ (flag : Bool) (T : List Char) (p : Nat),
        ((applyTransformToEditor flag T p).setCursor).isSome →
          ((applyTransformToEditor flag T p).setText).isSome) := by
  constructor
  · intro flag T p h
    unfold applyTransformToEditor
    simp [h]
  · intro flag T p h
    unfold applyTransformToEditor at h ⊢
    by_cases he : transformContent flag T = T
    · simp [he] at h
    · simp [he] at h ⊢

/-- C8, witness: on the single-character text `x` (a no-op) nothing is
written. -/
theorem claim_C8_witness :
    applyTransformToEditor false ("x".data) 0 = ⟨none, none⟩ :=
  claim_C8_theorem.1 false _ 0 (by decide)

/-- C9: a text in which no position starts a match of any of the four
pattern forms is returned unchanged by the rewrite pass. -/
theorem claim_C9_theorem (flag : Bool) (s : List Char)
    (h1 : hasPostfixAlias s = false) (h2 : hasPostfixLink s = false)
    (h3 : hasInlineAlias s = false) (h4 : hasInlineLink s = false) :
    transformContent flag s = s :=
  transformContent_eq_self h1 h2 h3 h4

/-- C9, witness: malformed markup — a lone `\l`, a bad command letter
`\z`, single-bracket text — has no occurrence and is left untouched. -/
theorem claim_C9_witness :
    (hasPostfixAlias ("a \\l [[x\\z]] [y]\\u".data) = false ∧
      hasPostfixLink ("a \\l [[x\\z]] [y]\\u".data) = false ∧
      hasInlineAlias ("a \\l [[x\\z]] [y]\\u".data) = false ∧
      hasInlineLink ("a \\l [[x\\z]] [y]\\u".data) = false) ∧
    transformContent false ("a \\l [[x\\z]] [y]\\u".data) = "a \\l [[x\\z]] [y]\\u".data :=
  ⟨⟨by decide, by decide, by decide, by decide⟩,
    claim_C9_theorem false _ (by decide) (by decide) (by decide) (by decide)⟩

/-- C10: every capture of the four pattern forms needs at least one
character — no match carries an empty link target or an empty alias —
so `[[\l]]`, `[[]]\u` and `[[x|\u]]` are left unchanged. -/
theorem claim_C10_theorem :
    (∀ (l : List Char) (m : AliasMatch),
        matchPostfixAlias l = some m → m.linkTarget ≠ [] ∧ m.aliasText ≠ []) ∧
    (∀ (l : List Char) (m : AliasMatch),
        matchInlineAlias l = some m → m.linkTarget ≠ [] ∧ m.aliasText ≠ []) ∧
    (∀ (l : List Char) (m : LinkMatch),
        matchPostfixLink l = some m → m.linkTarget ≠ []) ∧
    (∀ (l : List Char) (m : LinkMatch),
        matchInlineLink l = some m → m.linkTarget ≠ []) ∧
    (∀ flag : Bool,
        transformContent flag ("[[\\l]]".data) = "[[\\l]]".data ∧
        transformContent flag ("[[]]\\u".data) = "[[]]\\u".data ∧
        transformContent flag ("[[x|\\u]]".data) = "[[x|\\u]]".data) :=
  ⟨fun _ _ h => matchPostfixAlias_captures h, fun _ _ h => matchInlineAlias_captures h,
    fun _ _ h => matchPostfixLink_captures h, fun _ _ h => matchInlineLink_captures h,
    by decide⟩

/-- C10, witness: the postfix-alias match of `[[x|y]]\u` has the
nonempty captures `x` and `y`. -/
theorem claim_C10_witness :
    ("x".data : List Char) ≠ [] ∧ ("y".data : List Char) ≠ [] :=
  claim_C10_theorem.1 ("[[x|y]]\\u".data) ⟨"x".data, "y".data, Cmd.u⟩ (by decide)

end LinkCasing
